import Mathlib

/-!
Verification of the typed-term core of the dependant-py repository
(`src/typecheck.py`): term representation, substitution, context,
unification, and inference, embedded shallowly and checked against the
specification's claims.
-/

namespace Typecheck

mutual
/--
The closed set of term variants from `src/typecheck.py` (`Term` type alias):
`Var`, `TypeConstructor`, `DependantType`, `Nat` (here `NatLit`, since `Nat`
is taken by Lean's naturals), `Abstraction`, `Application`, `WildCard`.
A constructor's Python argument list is carried as a `TermList`.
The extra constructor `pnone` models the Python value `None`, which
`Substitution.__call__` returns for the variants it does not handle
(`Abstraction` and `WildCard` have no `isinstance` case there).
-/
inductive Term where
  | Var (name : String)
  | TypeConstructor (name : String) (args : TermList)
  | DependantType (param : String) (term : Term) (body : Term)
  | NatLit (value : Int)
  | Abstraction (param : String) (type : Term) (body : Term)
  | Application (func : Term) (arg : Term)
  | WildCard
  | pnone

/-- A Python list of terms (`list[Term]`). -/
inductive TermList where
  | nil
  | cons (head : Term) (tail : TermList)
end

deriving instance DecidableEq for Term
deriving instance DecidableEq for TermList

/-- Python `len` on a list of terms. -/
def termListLength : TermList → Nat
  | .nil => 0
  | .cons _ rest => 1 + termListLength rest

/-- Python `dict` lookup (`d.get(k)` / `d[k]`): the unique matching key, here
the first since well-formed dicts never hold a key twice. -/
def dictGet (m : List (String × Term)) (k : String) : Option Term :=
  match m with
  | [] => none
  | (k', v) :: rest => if k' = k then some v else dictGet rest k

/-- Python `k in d` membership test. -/
def dictContains (m : List (String × Term)) (k : String) : Bool :=
  match m with
  | [] => false
  | (k', _) :: rest => k' = k || dictContains rest k

/-- Python `d[k] = v`: update the existing entry in place (dicts keep the
original insertion position on update) or append a new entry. -/
def dictSet (m : List (String × Term)) (k : String) (v : Term) : List (String × Term) :=
  match m with
  | [] => [(k, v)]
  | (k', v') :: rest => if k' = k then (k, v) :: rest else (k', v') :: dictSet rest k v

/-- Python `d |= other`, i.e. `d[k] = v` iterated over `other`'s items in
insertion order. -/
def dictUpdate (m other : List (String × Term)) : List (String × Term) :=
  other.foldl (fun acc kv => dictSet acc kv.1 kv.2) m

/-- `Substitution`: a finite mapping from variable name to term, carried as
the underlying Python dict's association list in insertion order. -/
structure Substitution where
  mapping : List (String × Term)
deriving DecidableEq

/-- `Substitution()` with the default empty mapping. -/
def emptySub : Substitution := ⟨[]⟩

mutual
/--
`Substitution.__call__` on a term: `Var` is looked up (or returned as is),
`TypeConstructor`/`DependantType`/`Application` are rebuilt with substituted
children, `Nat` is returned unchanged.  `Abstraction` and `WildCard` match
none of the `isinstance` cases, so the Python function falls off the end and
returns `None`, modelled by `pnone` (and `None` itself propagates to `None`).
-/
def applyTerm (s : Substitution) : Term → Term
  | .Var n =>
      match dictGet s.mapping n with
      | some v => v
      | none => .Var n
  | .TypeConstructor n args => .TypeConstructor n (applyList s args)
  | .DependantType p t b => .DependantType p (applyTerm s t) (applyTerm s b)
  | .NatLit v => .NatLit v
  | .Application f a => .Application (applyTerm s f) (applyTerm s a)
  | .Abstraction _ _ _ => .pnone
  | .WildCard => .pnone
  | .pnone => .pnone

/-- The list comprehension `[self(a) for a in x.args]`. -/
def applyList (s : Substitution) : TermList → TermList
  | .nil => .nil
  | .cons a rest => .cons (applyTerm s a) (applyList s rest)
end

/--
`Substitution.__call__` on a substitution (composition): copy `self`'s
mapping, then for every `k, v` in the argument's mapping set
`s[k] = self(v)`.
-/
def composeSub (self other : Substitution) : Substitution :=
  ⟨other.mapping.foldl (fun acc kv => dictSet acc kv.1 (applyTerm self kv.2)) self.mapping⟩

/-- `Context`: mapping from name to classifier. -/
structure Context where
  mapping : List (String × Term)
deriving DecidableEq

/-- `Context.__init__`: unconditionally writes the four built-in bindings
into the given mapping, in source order `Nat`, `true`, `false`, `Bool`. -/
def mkContext (m : List (String × Term)) : Context :=
  ⟨dictSet (dictSet (dictSet (dictSet m
      "Nat" (.TypeConstructor "Type" .nil))
      "true" (.TypeConstructor "Bool" .nil))
      "false" (.TypeConstructor "Bool" .nil))
      "Bool" (.TypeConstructor "Type" .nil)⟩

/-- The context built by the driver: `Context({})`. -/
def builtinContext : Context := mkContext []

mutual
/-- Size measure used to justify termination of `render` and `unify`. -/
def termSize : Term → Nat
  | .Var _ => 1
  | .TypeConstructor _ args => 1 + listSize args
  | .DependantType _ t b => 1 + termSize t + termSize b
  | .NatLit _ => 1
  | .Abstraction _ ty b => 1 + termSize ty + termSize b
  | .Application f a => 1 + termSize f + termSize a
  | .WildCard => 1
  | .pnone => 1

/-- Size of a list of terms (one plus element sizes per entry, so that a
list is always smaller than a term containing it and larger than each of
its elements). -/
def listSize : TermList → Nat
  | .nil => 0
  | .cons a rest => 1 + termSize a + listSize rest
end

theorem termSize_pos (t : Term) : 1 ≤ termSize t := by
  cases t <;> simp [termSize] <;> omega

mutual
/-- `__repr__` of each term variant.  For a `"->"` constructor Python indexes
`args[0]` and `args[1]`; with fewer than two arguments it would raise
`IndexError`, a case no claim reaches, rendered here like an ordinary
constructor.  `str(None)` is `"None"`. -/
def render : Term → String
  | .Var n => n
  | .TypeConstructor n .nil => n ++ renderArgs .nil
  | .TypeConstructor n (.cons a .nil) => n ++ renderArgs (.cons a .nil)
  | .TypeConstructor n (.cons a (.cons b rest)) =>
      if n = "->" then
        let l := render a
        let r := render b
        let l' := if l.contains ' ' then "(" ++ l ++ ")" else l
        let r' := if r.contains ' ' then "(" ++ r ++ ")" else r
        l' ++ " -> " ++ r'
      else n ++ renderArgs (.cons a (.cons b rest))
  | .DependantType p t b => "|" ++ p ++ ": " ++ render t ++ ". " ++ render b
  | .NatLit v => toString v
  | .Abstraction p ty b => "\\" ++ p ++ ": " ++ render ty ++ ". " ++ render b
  | .Application f a =>
      let fs := render f
      let ar := render a
      let ar' := if ar.contains ' ' then "(" ++ ar ++ ")" else ar
      fs ++ " " ++ ar'
  | .WildCard => "?"
  | .pnone => "None"
termination_by t => 2 * termSize t
decreasing_by
  all_goals simp only [termSize, listSize]
  all_goals omega

/-- `"".join([f" {a}" for a in self.args])`. -/
def renderArgs : TermList → String
  | .nil => ""
  | .cons a rest => " " ++ render a ++ renderArgs rest
termination_by l => 2 * listSize l + 1
decreasing_by
  all_goals simp only [termSize, listSize]
  all_goals omega
end

/-- `isinstance(t, Var)`. -/
def isVar : Term → Bool
  | .Var _ => true
  | _ => false

mutual
/--
`unify(t1, t2)` from `src/typecheck.py`, rule for rule in source order:
either side `WildCard` → empty substitution; both `Var` with equal names →
empty substitution, both `Var` otherwise → `{t2.name: t1}` (the `t2`-is-a-
`Var` rule); `t2` a `Var` → `{t2.name: t1}`; `t1` a `Var` → recurse with the
sides swapped (the single source line `return unify(t2, t1)`, spelled out
here per remaining shape of `t2` so that termination is visible); both
`TypeConstructor` → names and arities must match, then the argument lists
are unified pairwise with accumulator `s = s(result)`; both `DependantType`
→ raw dict merge of the two component results; both `Nat` → equal values;
both `Abstraction` → bodies only; both `Application` → accumulator
`s = result(s)` over function then argument parts; anything else (including
the Python value `None`) → failure.
-/
def unify (t1 t2 : Term) : Option Substitution :=
  match t1, t2 with
  | .WildCard, _ => some emptySub
  | _, .WildCard => some emptySub
  | .Var n1, .Var n2 =>
      if n1 = n2 then some emptySub else some ⟨[(n2, .Var n1)]⟩
  | t1', .Var n2 => some ⟨[(n2, t1')]⟩
  | .Var n1, .TypeConstructor n2 a2 => unify (.TypeConstructor n2 a2) (.Var n1)
  | .Var n1, .DependantType p2 x2 b2 => unify (.DependantType p2 x2 b2) (.Var n1)
  | .Var n1, .NatLit v2 => unify (.NatLit v2) (.Var n1)
  | .Var n1, .Abstraction p2 ty2 b2 => unify (.Abstraction p2 ty2 b2) (.Var n1)
  | .Var n1, .Application f2 x2 => unify (.Application f2 x2) (.Var n1)
  | .Var n1, .pnone => unify .pnone (.Var n1)
  | .TypeConstructor n1 a1, .TypeConstructor n2 a2 =>
      if n1 ≠ n2 then none
      else if termListLength a1 ≠ termListLength a2 then none
      else unifyArgs a1 a2 emptySub
  | .DependantType _ x1 b1, .DependantType _ x2 b2 =>
      match unify x1 x2 with
      | none => none
      | some r1 =>
        match unify b1 b2 with
        | none => none
        | some r2 => some ⟨dictUpdate (dictUpdate [] r1.mapping) r2.mapping⟩
  | .NatLit v1, .NatLit v2 => if v1 ≠ v2 then none else some emptySub
  | .Abstraction _ _ b1, .Abstraction _ _ b2 => unify b1 b2
  | .Application f1 x1, .Application f2 x2 =>
      match unify f1 f2 with
      | none => none
      | some r1 =>
        let s := composeSub r1 emptySub
        match unify x1 x2 with
        | none => none
        | some r2 => some (composeSub r2 s)
  | _, _ => none
termination_by 2 * (termSize t1 + termSize t2) + (if isVar t1 then 1 else 0)
decreasing_by
  all_goals simp_wf
  all_goals simp only [termSize, listSize, isVar, if_true, if_false]
  all_goals (first | omega | (split <;> simp_all <;> omega))

/-- The `zip` loop of the `TypeConstructor` rule: `s = s(result)` on each
pairwise result, failing fast on the first failing pair (`zip` stops at the
shorter list, though the arity check makes the lists equally long). -/
def unifyArgs (l1 l2 : TermList) (s : Substitution) : Option Substitution :=
  match l1, l2 with
  | .cons a rest1, .cons b rest2 =>
      match unify a b with
      | none => none
      | some r => unifyArgs rest1 rest2 (composeSub s r)
  | _, _ => some s
termination_by 2 * (listSize l1 + listSize l2) + 2
decreasing_by
  all_goals simp_wf
  all_goals simp only [termSize, listSize, isVar, if_true, if_false]
  all_goals (first | omega | (split <;> simp_all <;> omega))
end

/-- The result type of `infer` (`InferenceResult` in the source):
a `(Substitution, Term)` pair or an error string. -/
inductive InferResult where
  | ok (s : Substitution) (t : Term)
  | err (msg : String)
deriving DecidableEq

/-- The name given to a freshly created unnamed `Var` when the process-wide
counter `Var.var_count` holds `c`: the counter is first incremented, then
the name is `t{Var.var_count}`. -/
def freshName (c : Nat) : String := "t" ++ Nat.repr (c + 1)

/-- The context in which an `Abstraction` body is inferred:
`Context(context.mapping.copy())` re-seeds the four built-ins on a copy,
then `context.mapping[self.param] = self.type` binds the parameter. -/
def absContext (p : String) (ty : Term) (ctx : Context) : Context :=
  ⟨dictSet (mkContext ctx.mapping).mapping p ty⟩

/--
`infer` of every variant, with the process-wide fresh-name counter
`Var.var_count` threaded explicitly as the extra `Nat` argument and result:
it is the only state the source reads or writes.
* `TypeConstructor`: truthiness test `not context.mapping.get(name)` (absent
  key, or a stored `None`) gives `not found`, else the stored classifier.
* `Nat`: classifier `TypeConstructor("Nat")`.
* `Var`: membership test on the context, else `Unbound variable`.
* `Abstraction`: infer the body in `absContext`, wrap in an arrow.
* `Application`: infer both parts against the original context, make a
  fresh `β`, unify the function classifier against `->(argClassifier, β)`,
  compose `s3(s2(s1))` and apply `s3` to `β`.
* `DependantType`: re-seed a copied context, infer the bound term, bind the
  parameter to its classifier, infer the body, compose `s2(s1)`.
* `WildCard`: a fresh variable as classifier.
* `None` has no `infer` method (Python would raise); modelled as an error.
-/
def infer : Term → Context → Nat → InferResult × Nat
  | .TypeConstructor n _, ctx, c =>
      (match dictGet ctx.mapping n with
       | none => .err ("not found: " ++ n)
       | some .pnone => .err ("not found: " ++ n)
       | some v => .ok emptySub v, c)
  | .NatLit _, _, c => (.ok emptySub (.TypeConstructor "Nat" .nil), c)
  | .Var n, ctx, c =>
      if dictContains ctx.mapping n then
        (.ok emptySub ((dictGet ctx.mapping n).getD .pnone), c)
      else
        (.err ("Unbound variable: " ++ n), c)
  | .Abstraction p ty body, ctx, c =>
      match infer body (absContext p ty ctx) c with
      | (.err e, c') => (.err e, c')
      | (.ok s2 t1, c') => (.ok s2 (.TypeConstructor "->" (.cons ty (.cons t1 .nil))), c')
  | .Application func arg, ctx, c =>
      match infer func ctx c with
      | (.err e, c1) => (.err e, c1)
      | (.ok s1 t1, c1) =>
        match infer arg ctx c1 with
        | (.err e, c2) => (.err e, c2)
        | (.ok s2 t2, c2) =>
          let beta : Term := .Var (freshName c2)
          let fn : Term := .TypeConstructor "->" (.cons t2 (.cons beta .nil))
          match unify t1 fn with
          | none =>
              (.err ("Failed unification of function types: '" ++ render t1 ++
                "' and '" ++ render fn ++ "'"), c2 + 1)
          | some s3 => (.ok (composeSub s3 (composeSub s2 s1)) (applyTerm s3 beta), c2 + 1)
  | .DependantType p tm body, ctx, c =>
      match infer tm (mkContext ctx.mapping) c with
      | (.err e, c1) => (.err e, c1)
      | (.ok s1 t1, c1) =>
        match infer body ⟨dictSet (mkContext ctx.mapping).mapping p t1⟩ c1 with
        | (.err e, c2) => (.err e, c2)
        | (.ok s2 t2, c2) => (.ok (composeSub s2 s1) (.DependantType p t1 t2), c2)
  | .WildCard, _, c => (.ok emptySub (.Var (freshName c)), c + 1)
  | .pnone, _, c => (.err "AttributeError: 'NoneType' object has no attribute 'infer'", c)

/--
The `Application` inference step exactly as the specification words it:
infer `func` and `arg` independently against the original context, make a
fresh variable `β`, unify the function classifier against
`Constructor("->", [argClassifier, β])`, on failure return the unification
failure, on success return substitution `(unify-result) ∘ (arg-result) ∘
(func-result)` and classifier `(unify-result)(β)`.
-/
def applicationInferSpec (func arg : Term) (ctx : Context) (c : Nat) : InferResult × Nat :=
  match infer func ctx c with
  | (.err e, c1) => (.err e, c1)
  | (.ok s1 t1, c1) =>
    match infer arg ctx c1 with
    | (.err e, c2) => (.err e, c2)
    | (.ok s2 t2, c2) =>
      let beta : Term := .Var (freshName c2)
      let fn : Term := .TypeConstructor "->" (.cons t2 (.cons beta .nil))
      match unify t1 fn with
      | none =>
          (.err ("Failed unification of function types: '" ++ render t1 ++
            "' and '" ++ render fn ++ "'"), c2 + 1)
      | some s3 => (.ok (composeSub s3 (composeSub s2 s1)) (applyTerm s3 beta), c2 + 1)

mutual
/-- Terms built only from `TypeConstructor`, `Nat` literals and
`Application` nodes: no variables, wildcards, abstractions, dependant types
or `None`.  On this fragment unification has no binding or fall-through
behaviour, which isolates the part of the algorithm where soundness can
hold. -/
def rigidTerm : Term → Bool
  | .TypeConstructor _ args => rigidList args
  | .NatLit _ => true
  | .Application f a => rigidTerm f && rigidTerm a
  | _ => false

/-- `rigidTerm` on every element of a list. -/
def rigidList : TermList → Bool
  | .nil => true
  | .cons a rest => rigidTerm a && rigidList rest
end

/--
The accumulator pattern of the `TypeConstructor` unification rule (rule 4),
transplanted onto the `Application` rule as the specification's rule 8
claims: start from the empty substitution and fold each partial result `r`
as `s = s(r)` (apply the accumulator to the new result, then merge).
-/
def appRuleConstructorPattern (f1 x1 f2 x2 : Term) : Option Substitution :=
  match unify f1 f2 with
  | none => none
  | some r1 =>
    let s := composeSub emptySub r1
    match unify x1 x2 with
    | none => none
    | some r2 => some (composeSub s r2)

/--
The accumulator pattern the `Application` unification rule actually
implements: start from the empty substitution and fold each partial result
`r` as `s = r(s)` (apply the new result to the accumulator, then merge,
with the accumulator's entries overriding the new result's).
-/
def appRuleReversedPattern (f1 x1 f2 x2 : Term) : Option Substitution :=
  match unify f1 f2 with
  | none => none
  | some r1 =>
    let s := composeSub r1 emptySub
    match unify x1 x2 with
    | none => none
    | some r2 => some (composeSub r2 s)

/--
`infer` as an inductively defined inference relation on
`(term, context, counter) → (result, counter)`, one constructor per branch
of the source.  Used to state determinism of inference: the relation may a
priori relate one input to several outcomes, and a theorem shows it does
not.
-/
inductive InferR : Term → Context → Nat → InferResult → Nat → Prop where
  | tcFound (n : String) (args : TermList) (ctx : Context) (c : Nat) (v : Term)
      (hget : dictGet ctx.mapping n = some v) (hv : v ≠ .pnone) :
      InferR (.TypeConstructor n args) ctx c (.ok emptySub v) c
  | tcMissing (n : String) (args : TermList) (ctx : Context) (c : Nat)
      (hget : dictGet ctx.mapping n = none) :
      InferR (.TypeConstructor n args) ctx c (.err ("not found: " ++ n)) c
  | tcNone (n : String) (args : TermList) (ctx : Context) (c : Nat)
      (hget : dictGet ctx.mapping n = some .pnone) :
      InferR (.TypeConstructor n args) ctx c (.err ("not found: " ++ n)) c
  | natLit (v : Int) (ctx : Context) (c : Nat) :
      InferR (.NatLit v) ctx c (.ok emptySub (.TypeConstructor "Nat" .nil)) c
  | varFound (n : String) (ctx : Context) (c : Nat)
      (hmem : dictContains ctx.mapping n = true) :
      InferR (.Var n) ctx c (.ok emptySub ((dictGet ctx.mapping n).getD .pnone)) c
  | varMissing (n : String) (ctx : Context) (c : Nat)
      (hmem : dictContains ctx.mapping n = false) :
      InferR (.Var n) ctx c (.err ("Unbound variable: " ++ n)) c
  | absErr (p : String) (ty body : Term) (ctx : Context) (c : Nat) (e : String) (c' : Nat)
      (hbody : InferR body (absContext p ty ctx) c (.err e) c') :
      InferR (.Abstraction p ty body) ctx c (.err e) c'
  | absOk (p : String) (ty body : Term) (ctx : Context) (c : Nat)
      (s2 : Substitution) (t1 : Term) (c' : Nat)
      (hbody : InferR body (absContext p ty ctx) c (.ok s2 t1) c') :
      InferR (.Abstraction p ty body) ctx c
        (.ok s2 (.TypeConstructor "->" (.cons ty (.cons t1 .nil)))) c'
  | appErrFunc (func arg : Term) (ctx : Context) (c : Nat) (e : String) (c1 : Nat)
      (hfunc : InferR func ctx c (.err e) c1) :
      InferR (.Application func arg) ctx c (.err e) c1
  | appErrArg (func arg : Term) (ctx : Context) (c : Nat)
      (s1 : Substitution) (t1 : Term) (c1 : Nat) (e : String) (c2 : Nat)
      (hfunc : InferR func ctx c (.ok s1 t1) c1)
      (harg : InferR arg ctx c1 (.err e) c2) :
      InferR (.Application func arg) ctx c (.err e) c2
  | appUnifyFail (func arg : Term) (ctx : Context) (c : Nat)
      (s1 : Substitution) (t1 : Term) (c1 : Nat)
      (s2 : Substitution) (t2 : Term) (c2 : Nat)
      (hfunc : InferR func ctx c (.ok s1 t1) c1)
      (harg : InferR arg ctx c1 (.ok s2 t2) c2)
      (hunify : unify t1 (.TypeConstructor "->"
        (.cons t2 (.cons (.Var (freshName c2)) .nil))) = none) :
      InferR (.Application func arg) ctx c
        (.err ("Failed unification of function types: '" ++ render t1 ++ "' and '" ++
          render (Term.TypeConstructor "->"
            (.cons t2 (.cons (.Var (freshName c2)) .nil))) ++ "'")) (c2 + 1)
  | appOk (func arg : Term) (ctx : Context) (c : Nat)
      (s1 : Substitution) (t1 : Term) (c1 : Nat)
      (s2 : Substitution) (t2 : Term) (c2 : Nat) (s3 : Substitution)
      (hfunc : InferR func ctx c (.ok s1 t1) c1)
      (harg : InferR arg ctx c1 (.ok s2 t2) c2)
      (hunify : unify t1 (.TypeConstructor "->"
        (.cons t2 (.cons (.Var (freshName c2)) .nil))) = some s3) :
      InferR (.Application func arg) ctx c
        (.ok (composeSub s3 (composeSub s2 s1))
          (applyTerm s3 (.Var (freshName c2)))) (c2 + 1)
  | dtErrTerm (p : String) (tm body : Term) (ctx : Context) (c : Nat) (e : String) (c1 : Nat)
      (htm : InferR tm (mkContext ctx.mapping) c (.err e) c1) :
      InferR (.DependantType p tm body) ctx c (.err e) c1
  | dtErrBody (p : String) (tm body : Term) (ctx : Context) (c : Nat)
      (s1 : Substitution) (t1 : Term) (c1 : Nat) (e : String) (c2 : Nat)
      (htm : InferR tm (mkContext ctx.mapping) c (.ok s1 t1) c1)
      (hbody : InferR body ⟨dictSet (mkContext ctx.mapping).mapping p t1⟩ c1 (.err e) c2) :
      InferR (.DependantType p tm body) ctx c (.err e) c2
  | dtOk (p : String) (tm body : Term) (ctx : Context) (c : Nat)
      (s1 : Substitution) (t1 : Term) (c1 : Nat)
      (s2 : Substitution) (t2 : Term) (c2 : Nat)
      (htm : InferR tm (mkContext ctx.mapping) c (.ok s1 t1) c1)
      (hbody : InferR body ⟨dictSet (mkContext ctx.mapping).mapping p t1⟩ c1 (.ok s2 t2) c2) :
      InferR (.DependantType p tm body) ctx c (.ok (composeSub s2 s1) (.DependantType p t1 t2)) c2
  | wildcard (ctx : Context) (c : Nat) :
      InferR .WildCard ctx c (.ok emptySub (.Var (freshName c))) (c + 1)
  | pnoneR (ctx : Context) (c : Nat) :
      InferR .pnone ctx c (.err "AttributeError: 'NoneType' object has no attribute 'infer'") c

/--
Ghost-instrumented variant of `infer` that additionally records, in
creation order, the name of every fresh variable generated during the run
(by wildcard inference and by application's `β`); the first two components
coincide with `infer`, which a theorem below proves.
-/
def inferT : Term → Context → Nat → InferResult × Nat × List String
  | .TypeConstructor n _, ctx, c =>
      ((match dictGet ctx.mapping n with
        | none => .err ("not found: " ++ n)
        | some .pnone => .err ("not found: " ++ n)
        | some v => .ok emptySub v), c, [])
  | .NatLit _, _, c => (.ok emptySub (.TypeConstructor "Nat" .nil), c, [])
  | .Var n, ctx, c =>
      if dictContains ctx.mapping n then
        (.ok emptySub ((dictGet ctx.mapping n).getD .pnone), c, [])
      else
        (.err ("Unbound variable: " ++ n), c, [])
  | .Abstraction p ty body, ctx, c =>
      match inferT body (absContext p ty ctx) c with
      | (.err e, c', ns) => (.err e, c', ns)
      | (.ok s2 t1, c', ns) =>
          (.ok s2 (.TypeConstructor "->" (.cons ty (.cons t1 .nil))), c', ns)
  | .Application func arg, ctx, c =>
      match inferT func ctx c with
      | (.err e, c1, ns1) => (.err e, c1, ns1)
      | (.ok s1 t1, c1, ns1) =>
        match inferT arg ctx c1 with
        | (.err e, c2, ns2) => (.err e, c2, ns1 ++ ns2)
        | (.ok s2 t2, c2, ns2) =>
          let beta : Term := .Var (freshName c2)
          let fn : Term := .TypeConstructor "->" (.cons t2 (.cons beta .nil))
          match unify t1 fn with
          | none =>
              (.err ("Failed unification of function types: '" ++ render t1 ++
                "' and '" ++ render fn ++ "'"), c2 + 1, ns1 ++ ns2 ++ [freshName c2])
          | some s3 =>
              (.ok (composeSub s3 (composeSub s2 s1)) (applyTerm s3 beta), c2 + 1,
                ns1 ++ ns2 ++ [freshName c2])
  | .DependantType p tm body, ctx, c =>
      match inferT tm (mkContext ctx.mapping) c with
      | (.err e, c1, ns1) => (.err e, c1, ns1)
      | (.ok s1 t1, c1, ns1) =>
        match inferT body ⟨dictSet (mkContext ctx.mapping).mapping p t1⟩ c1 with
        | (.err e, c2, ns2) => (.err e, c2, ns1 ++ ns2)
        | (.ok s2 t2, c2, ns2) =>
            (.ok (composeSub s2 s1) (.DependantType p t1 t2), c2, ns1 ++ ns2)
  | .WildCard, _, c => (.ok emptySub (.Var (freshName c)), c + 1, [freshName c])
  | .pnone, _, c => (.err "AttributeError: 'NoneType' object has no attribute 'infer'", c, [])

/-- The numeric value of a decimal digit character. -/
def digitVal (c : Char) : Nat := c.toNat - Char.toNat '0'

/-- The decimal digits of `n`, most significant first: a fuel-free
restatement of `Nat.toDigits 10` used to reason about `Nat.repr`. -/
def myDigits (n : Nat) : List Char :=
  if n < 10 then [Nat.digitChar n]
  else myDigits (n / 10) ++ [Nat.digitChar (n % 10)]
decreasing_by
  have : n / 10 < n := Nat.div_lt_self (by omega) (by omega)
  omega

/-! ## Dictionary lemmas -/

theorem dictGet_dictSet_self (m : List (String × Term)) (k : String) (v : Term) :
    dictGet (dictSet m k v) k = some v := by
  induction m with
  | nil => simp [dictSet, dictGet]
  | cons kv rest ih =>
      obtain ⟨k', v'⟩ := kv
      by_cases h : k' = k <;> simp [dictSet, dictGet, h, ih]

theorem dictGet_dictSet_ne (m : List (String × Term)) (k k' : String) (v : Term)
    (h : k' ≠ k) : dictGet (dictSet m k' v) k = dictGet m k := by
  induction m with
  | nil => simp [dictSet, dictGet, h]
  | cons kv rest ih =>
      obtain ⟨k'', v''⟩ := kv
      by_cases h2 : k'' = k' <;> by_cases h3 : k'' = k <;>
        simp_all [dictSet, dictGet]

theorem dictContains_eq_isSome (m : List (String × Term)) (k : String) :
    dictContains m k = (dictGet m k).isSome := by
  induction m with
  | nil => simp [dictContains, dictGet]
  | cons kv rest ih =>
      obtain ⟨k', v'⟩ := kv
      by_cases h : k' = k <;> simp [dictContains, dictGet, h, ih]

theorem dictGet_mkContext_Nat (m : List (String × Term)) :
    dictGet (mkContext m).mapping "Nat" = some (.TypeConstructor "Type" .nil) := by
  simp [mkContext, dictGet_dictSet_self, dictGet_dictSet_ne]

theorem dictGet_mkContext_true (m : List (String × Term)) :
    dictGet (mkContext m).mapping "true" = some (.TypeConstructor "Bool" .nil) := by
  simp [mkContext, dictGet_dictSet_self, dictGet_dictSet_ne]

theorem dictGet_mkContext_false (m : List (String × Term)) :
    dictGet (mkContext m).mapping "false" = some (.TypeConstructor "Bool" .nil) := by
  simp [mkContext, dictGet_dictSet_self, dictGet_dictSet_ne]

theorem dictGet_mkContext_Bool (m : List (String × Term)) :
    dictGet (mkContext m).mapping "Bool" = some (.TypeConstructor "Type" .nil) := by
  simp [mkContext, dictGet_dictSet_self, dictGet_dictSet_ne]

/-! ## Claim theorems: concrete scenarios and counterexamples -/

/--
C4 (code bug): `Substitution.__call__` has no `isinstance` case for
`Abstraction` or `WildCard`, so instead of returning a structurally
identical term for the empty substitution (or rebuilding an abstraction
with substituted children), it falls off the end of the function and
returns Python `None` — which is not the original term.
-/
theorem apply_falls_through_abstraction_and_wildcard :
    applyTerm emptySub (.Abstraction "x" (.TypeConstructor "Nat" .nil) (.Var "x")) = .pnone ∧
    applyTerm emptySub .WildCard = .pnone ∧
    Term.pnone ≠ .Abstraction "x" (.TypeConstructor "Nat" .nil) (.Var "x") :=
  ⟨rfl, rfl, by decide⟩

/--
C6 (counterexample): inferring the dependant term `|x: 5. x` against the
built-in context succeeds, but its classifier renders as `|x: Nat. Nat` —
`DependantType.__repr__` is `|param: term. body` — and not as
`(x : Nat) -> Nat` as the claim states.
-/
theorem dependant_type_render_counterexample :
    infer (.DependantType "x" (.NatLit 5) (.Var "x")) builtinContext 0 =
      (.ok emptySub (.DependantType "x" (.TypeConstructor "Nat" .nil)
        (.TypeConstructor "Nat" .nil)), 0) ∧
    render (.DependantType "x" (.TypeConstructor "Nat" .nil) (.TypeConstructor "Nat" .nil)) =
      "|x: Nat. Nat" ∧
    "|x: Nat. Nat" ≠ "(x : Nat) -> Nat" :=
  ⟨by decide, by simp [render, renderArgs], by decide⟩

/--
C6 (amended): every `DependantType` renders as `|param: term. body`, and
inferring `|x: 5. x` against the built-in context succeeds with classifier
`DependantType("x", Nat, Nat)`, rendering `|x: Nat. Nat`.
-/
theorem dependant_type_render_amended :
    (∀ p t b, render (.DependantType p t b) =
      "|" ++ p ++ ": " ++ render t ++ ". " ++ render b) ∧
    infer (.DependantType "x" (.NatLit 5) (.Var "x")) builtinContext 0 =
      (.ok emptySub (.DependantType "x" (.TypeConstructor "Nat" .nil)
        (.TypeConstructor "Nat" .nil)), 0) ∧
    render (.DependantType "x" (.TypeConstructor "Nat" .nil) (.TypeConstructor "Nat" .nil)) =
      "|x: Nat. Nat" :=
  ⟨fun p t b => by simp [render], by decide, by simp [render, renderArgs]⟩

/--
C2: the `Application` branch of `infer` is exactly the specification's
description (`applicationInferSpec`): independent inference of function and
argument against the original context, a fresh `β`, unification of the
function classifier against `->(argClassifier, β)`, error on failure, and
on success substitution `s3(s2(s1))` with classifier `s3(β)`.  Moreover
scenario C holds: `(\x: Nat. x) 5` infers successfully against the
built-in context with a classifier rendering `Nat`.
-/
theorem application_infer_follows_spec :
    (∀ func arg ctx c, infer (.Application func arg) ctx c =
      applicationInferSpec func arg ctx c) ∧
    infer (.Application (.Abstraction "x" (.TypeConstructor "Nat" .nil) (.Var "x"))
        (.NatLit 5)) builtinContext 0 =
      (.ok ⟨[("t1", .TypeConstructor "Nat" .nil)]⟩ (.TypeConstructor "Nat" .nil), 1) ∧
    render (.TypeConstructor "Nat" .nil) = "Nat" := by
  refine ⟨fun func arg ctx c => rfl, ?_, by simp [render, renderArgs]⟩
  simp [infer, unify, unifyArgs, composeSub, applyTerm, applyList, dictSet, dictGet,
    dictContains, emptySub, termListLength, absContext, mkContext, builtinContext,
    freshName, Nat.repr]
  rfl

/--
C10: constructing a `Context` from any mapping unconditionally writes the
four built-in bindings (`Nat ↦ Type`, `true ↦ Bool`, `false ↦ Bool`,
`Bool ↦ Type`) into it, overwriting existing bindings of those names; and
since entering a binder rebuilds a `Context` from a copy of the enclosing
mapping, a built-in name shadowed by an outer binder (here `Nat`) is reset
to its built-in classifier inside an inner binder.
-/
theorem context_builtins_overwrite_and_reset :
    (∀ m, dictGet (mkContext m).mapping "Nat" = some (.TypeConstructor "Type" .nil) ∧
          dictGet (mkContext m).mapping "true" = some (.TypeConstructor "Bool" .nil) ∧
          dictGet (mkContext m).mapping "false" = some (.TypeConstructor "Bool" .nil) ∧
          dictGet (mkContext m).mapping "Bool" = some (.TypeConstructor "Type" .nil)) ∧
    (∀ ty ty' ctx c,
      infer (.Abstraction "Nat" ty (.Abstraction "y" ty' (.Var "Nat"))) ctx c =
        (.ok emptySub (.TypeConstructor "->" (.cons ty (.cons (.TypeConstructor "->"
          (.cons ty' (.cons (.TypeConstructor "Type" .nil) .nil))) .nil))), c)) := by
  constructor
  · intro m
    exact ⟨dictGet_mkContext_Nat m, dictGet_mkContext_true m,
      dictGet_mkContext_false m, dictGet_mkContext_Bool m⟩
  · intro ty ty' ctx c
    have hget : dictGet (absContext "y" ty' (absContext "Nat" ty ctx)).mapping "Nat" =
        some (.TypeConstructor "Type" .nil) := by
      simp only [absContext]
      rw [dictGet_dictSet_ne _ _ _ _ (by decide)]
      exact dictGet_mkContext_Nat _
    have hmem : dictContains (absContext "y" ty' (absContext "Nat" ty ctx)).mapping "Nat" =
        true := by
      rw [dictContains_eq_isSome, hget]
      rfl
    simp [infer, hget, hmem]

/--
C1 (counterexample): unification is not sound.  Unifying
`F(x, x)` with `F(Nat, Bool)` succeeds with the substitution `{x ↦ Bool}`
(the later pairwise binding overwrites the earlier one in the accumulator),
yet applying that substitution gives `F(Bool, Bool)` on the left and
`F(Nat, Bool)` on the right, which are not structurally equal.
-/
theorem unify_soundness_counterexample :
    unify (.TypeConstructor "F" (.cons (.Var "x") (.cons (.Var "x") .nil)))
        (.TypeConstructor "F" (.cons (.TypeConstructor "Nat" .nil)
          (.cons (.TypeConstructor "Bool" .nil) .nil))) =
      some ⟨[("x", .TypeConstructor "Bool" .nil)]⟩ ∧
    applyTerm ⟨[("x", .TypeConstructor "Bool" .nil)]⟩
        (.TypeConstructor "F" (.cons (.Var "x") (.cons (.Var "x") .nil))) ≠
      applyTerm ⟨[("x", .TypeConstructor "Bool" .nil)]⟩
        (.TypeConstructor "F" (.cons (.TypeConstructor "Nat" .nil)
          (.cons (.TypeConstructor "Bool" .nil) .nil))) := by
  constructor
  · simp [unify, unifyArgs, composeSub, applyTerm, applyList, dictSet, emptySub,
      termListLength]
  · decide

/--
C7 (counterexample): the `Application` unification rule does not fold with
the `TypeConstructor` rule's accumulator pattern.  On
`unify(x x, A B)` the implementation (`s = result(s)`) keeps the earlier
binding and yields `{x ↦ A}`, while rule 4's pattern (`s = s(result)`)
would keep the later binding and yield `{x ↦ B}`.
-/
theorem application_unify_pattern_counterexample :
    unify (.Application (.Var "x") (.Var "x"))
        (.Application (.TypeConstructor "A" .nil) (.TypeConstructor "B" .nil)) =
      some ⟨[("x", .TypeConstructor "A" .nil)]⟩ ∧
    appRuleConstructorPattern (.Var "x") (.Var "x")
        (.TypeConstructor "A" .nil) (.TypeConstructor "B" .nil) =
      some ⟨[("x", .TypeConstructor "B" .nil)]⟩ ∧
    (⟨[("x", .TypeConstructor "A" .nil)]⟩ : Substitution) ≠
      ⟨[("x", .TypeConstructor "B" .nil)]⟩ := by
  refine ⟨?_, ?_, by decide⟩
  · simp [unify, unifyArgs, composeSub, applyTerm, applyList, dictSet, emptySub]
  · simp [appRuleConstructorPattern, unify, composeSub, applyTerm, applyList,
      dictSet, emptySub]

/--
C7 (amended): the `Application` unification rule folds partial results in
the reversed orientation relative to rule 4: `s = result(s)` (apply each
new result to the accumulator, the accumulator's entries overriding),
captured by `appRuleReversedPattern`.
-/
theorem application_unify_reversed_pattern :
    ∀ f1 x1 f2 x2, unify (.Application f1 x1) (.Application f2 x2) =
      appRuleReversedPattern f1 x1 f2 x2 := by
  intro f1 x1 f2 x2
  rw [unify.eq_def]
  rfl

/--
C8 (counterexample): re-running `infer` on the identical term and context
does not yield the identical outcome, because the process-wide fresh-name
counter persists across runs: inferring `?` twice in succession classifies
it first as the fresh variable `t1`, then as `t2`.
-/
theorem infer_rerun_counterexample :
    (infer .WildCard builtinContext 0).1 ≠
      (infer .WildCard builtinContext (infer .WildCard builtinContext 0).2).1 := by
  decide

/--
C9 (counterexample): freshly generated names can collide with
user-supplied variable names.  With the counter at 0, wildcard inference
generates the fresh variable `t1`, while `t1` is simultaneously a
user-supplied name bound in the context.
-/
theorem fresh_name_user_collision :
    infer .WildCard (mkContext [("t1", .TypeConstructor "Bool" .nil)]) 0 =
      (.ok emptySub (.Var "t1"), 1) ∧
    dictContains (mkContext [("t1", .TypeConstructor "Bool" .nil)]).mapping "t1" = true :=
  ⟨by decide, by decide⟩

set_option maxHeartbeats 1000000 in
/--
C5: unification is symmetric in success: `unify(t1, t2)` and
`unify(t2, t1)` either both return a substitution or both return failure
(the substitutions themselves may differ in which side got bound).
-/
theorem unify_isSome_symm (t1 t2 : Term) :
    (unify t1 t2).isSome = (unify t2 t1).isSome := by
  refine unify.induct
    (fun t1 t2 => (unify t1 t2).isSome = (unify t2 t1).isSome)
    (fun l1 l2 s => ∀ s',
      (unifyArgs l1 l2 s).isSome = (unifyArgs l2 l1 s').isSome)
    ?c1 ?c2 ?c3 ?c4 ?c5 ?c6 ?c7 ?c8 ?c9 ?c10 ?c11 ?c12 ?c13 ?c14 ?c15 ?c16 ?c17 ?c18 ?c19 ?c20 ?c21 ?c22 ?c23 ?c24 ?c25 ?c26 ?c27 t1 t2
  case c1 =>
    intro t2
    cases t2 <;> simp [unify]
  case c2 =>
    intro t1 h
    cases t1 <;> simp [unify]
  case c3 =>
    intro n
    simp [unify]
  case c4 =>
    intro n1 n2 h
    simp [unify, h, Ne.symm h]
  case c5 =>
    intro t1' n2 h1 h2
    cases t1' <;>
      first
      | (exact absurd rfl h1)
      | (exact absurd rfl (h2 _))
      | simp [unify]
  case c6 =>
    intro n1 n2 a2 ih
    simp [unify]
  case c7 =>
    intro n1 p2 x2 b2 ih
    simp [unify]
  case c8 =>
    intro n1 v2 ih
    simp [unify]
  case c9 =>
    intro n1 p2 ty2 b2 ih
    simp [unify]
  case c10 =>
    intro n1 f2 x2 ih
    simp [unify]
  case c11 =>
    intro n1 ih
    simp [unify]
  case c12 =>
    intro n1 a1 n2 a2 h
    simp [unify, h, Ne.symm h]
  case c13 =>
    intro n1 a1 n2 a2 hn hl
    have h1 := not_ne_iff.mp hn
    subst h1
    simp [unify, hl, Ne.symm hl]
  case c14 =>
    intro n1 a1 n2 a2 hn hl ih
    have h1 := not_ne_iff.mp hn
    subst h1
    have h2 := not_ne_iff.mp hl
    simp [unify, h2]
    exact ih emptySub
  case c15 =>
    intro p1 x1 b1 p2 x2 b2 hx ihx
    have hx2 : unify x2 x1 = none := by
      cases h2 : unify x2 x1 with
      | none => rfl
      | some r => rw [hx, h2] at ihx; simp at ihx
    simp [unify, hx, hx2]
  case c16 =>
    intro p1 x1 b1 p2 x2 b2 r hx hb ihx ihb
    have hb2 : unify b2 b1 = none := by
      cases h2 : unify b2 b1 with
      | none => rfl
      | some r' => rw [hb, h2] at ihb; simp at ihb
    cases hx2 : unify x2 x1 with
    | none => rw [hx, hx2] at ihx; simp at ihx
    | some r' => simp [unify, hx, hb, hx2, hb2]
  case c17 =>
    intro p1 x1 b1 p2 x2 b2 r hx r' hb ihx ihb
    cases hx2 : unify x2 x1 with
    | none => rw [hx, hx2] at ihx; simp at ihx
    | some rx =>
      cases hb2 : unify b2 b1 with
      | none => rw [hb, hb2] at ihb; simp at ihb
      | some rb => simp [unify, hx, hb, hx2, hb2]
  case c18 =>
    intro v1 v2 h
    simp [unify, h, Ne.symm h]
  case c19 =>
    intro v1 v2 h
    have h1 := not_ne_iff.mp h
    subst h1
    simp [unify]
  case c20 =>
    intro p1 ty1 b1 p2 ty2 b2 ih
    simp only [unify]
    exact ih
  case c21 =>
    intro f1 x1 f2 x2 hf ihf
    have hf2 : unify f2 f1 = none := by
      cases h2 : unify f2 f1 with
      | none => rfl
      | some r => rw [hf, h2] at ihf; simp at ihf
    simp [unify, hf, hf2]
  case c22 =>
    intro f1 x1 f2 x2 r hf hx ihf ihx
    have hx2 : unify x2 x1 = none := by
      cases h2 : unify x2 x1 with
      | none => rfl
      | some r' => rw [hx, h2] at ihx; simp at ihx
    cases hf2 : unify f2 f1 with
    | none => rw [hf, hf2] at ihf; simp at ihf
    | some r' => simp [unify, hf, hx, hf2, hx2]
  case c23 =>
    intro f1 x1 f2 x2 r hf r' hx ihf ihx
    cases hf2 : unify f2 f1 with
    | none => rw [hf, hf2] at ihf; simp at ihf
    | some rf =>
      cases hx2 : unify x2 x1 with
      | none => rw [hx, hx2] at ihx; simp at ihx
      | some rx => simp [unify, hf, hx, hf2, hx2]
  case c24 =>
    intro t1 t2 hw1 hw2 hv hvv hvtc hvdt hvnat hvabs hvapp hvpn htc hdt hnat habs happ
    cases t1 <;> cases t2 <;>
      first
      | exact absurd rfl hw1
      | exact absurd rfl hw2
      | exact absurd rfl (hv _)
      | exact absurd rfl (hvv _ _ rfl)
      | exact absurd rfl (hvtc _ _ _ rfl)
      | exact absurd rfl (hvdt _ _ _ _ rfl)
      | exact absurd rfl (hvnat _ _ rfl)
      | exact absurd rfl (hvabs _ _ _ _ rfl)
      | exact absurd rfl (hvapp _ _ _ rfl)
      | exact absurd rfl (hvpn _ rfl)
      | exact absurd rfl (htc _ _ _ _ rfl)
      | exact absurd rfl (hdt _ _ _ _ _ _ rfl)
      | exact absurd rfl (hnat _ _ rfl)
      | exact absurd rfl (habs _ _ _ _ _ _ rfl)
      | exact absurd rfl (happ _ _ _ _ rfl)
      | simp [unify]
  case c25 =>
    intro s a rest1 b rest2 hab ihab s'
    have hba : unify b a = none := by
      cases h2 : unify b a with
      | none => rfl
      | some r => rw [hab, h2] at ihab; simp at ihab
    simp [unifyArgs, hab, hba]
  case c26 =>
    intro s a rest1 b rest2 r hab ihab ihrest s'
    cases hba : unify b a with
    | none => rw [hab, hba] at ihab; simp at ihab
    | some r' =>
      simp only [unifyArgs, hab, hba]
      exact ihrest (composeSub s' r')
  case c27 =>
    intro l1 l2 s hexc s'
    cases l1 with
    | nil => cases l2 <;> simp [unifyArgs]
    | cons a rest1 =>
      cases l2 with
      | nil => simp [unifyArgs]
      | cons b rest2 => exact (hexc a rest1 b rest2 rfl rfl).elim

theorem dictGet_foldl_set_not_mem (g : Term → Term) (l : List (String × Term))
    (init : List (String × Term)) (k : String) (h : ∀ kv ∈ l, kv.1 ≠ k) :
    dictGet (l.foldl (fun acc kv => dictSet acc kv.1 (g kv.2)) init) k = dictGet init k := by
  induction l generalizing init with
  | nil => rfl
  | cons kv rest ih =>
    simp only [List.foldl_cons]
    rw [ih _ (fun kv' hm => h kv' (List.mem_cons_of_mem _ hm))]
    exact dictGet_dictSet_ne _ _ _ _ (h kv (List.mem_cons_self _ _))

theorem dictGet_foldl_set (g : Term → Term) (l : List (String × Term))
    (init : List (String × Term)) (n : String) (h : (l.map Prod.fst).Nodup) :
    dictGet (l.foldl (fun acc kv => dictSet acc kv.1 (g kv.2)) init) n =
    match dictGet l n with
    | some v => some (g v)
    | none => dictGet init n := by
  induction l generalizing init with
  | nil => rfl
  | cons kv rest ih =>
    obtain ⟨k, v⟩ := kv
    simp only [List.map_cons, List.nodup_cons] at h
    obtain ⟨hk, hrest⟩ := h
    simp only [List.foldl_cons]
    by_cases hkn : k = n
    · subst hkn
      rw [dictGet_foldl_set_not_mem]
      · rw [dictGet_dictSet_self]
        simp [dictGet]
      · intro kv' hm hEq
        exact hk (hEq ▸ List.mem_map_of_mem Prod.fst hm)
    · rw [ih _ hrest]
      simp only [dictGet, if_neg hkn]
      cases dictGet rest n with
      | some v' => rfl
      | none => exact dictGet_dictSet_ne _ _ _ _ hkn

/-- Lookup in a composed substitution: an entry of `s1` (applied through
`s2`) when present, else an entry of `s2`.  The `Nodup` hypothesis is the
Python dict invariant — a dict never holds a key twice. -/
theorem dictGet_composeSub (s2 s1 : Substitution) (n : String)
    (h : (s1.mapping.map Prod.fst).Nodup) :
    dictGet (composeSub s2 s1).mapping n =
    match dictGet s1.mapping n with
    | some v => some (applyTerm s2 v)
    | none => dictGet s2.mapping n :=
  dictGet_foldl_set (applyTerm s2) s1.mapping s2.mapping n h

mutual
theorem applyTerm_composeSub (s1 s2 : Substitution)
    (h : (s1.mapping.map Prod.fst).Nodup) :
    ∀ t, applyTerm (composeSub s2 s1) t = applyTerm s2 (applyTerm s1 t)
  | .Var n => by
    have hc := dictGet_composeSub s2 s1 n h
    cases hget : dictGet s1.mapping n with
    | some v =>
        rw [hget] at hc
        simp [applyTerm, hc, hget]
    | none =>
        rw [hget] at hc
        simp [applyTerm, hc, hget]
  | .TypeConstructor n args => by
    simp only [applyTerm]
    rw [applyList_composeSub s1 s2 h args]
  | .DependantType p t b => by
    simp only [applyTerm]
    rw [applyTerm_composeSub s1 s2 h t, applyTerm_composeSub s1 s2 h b]
  | .NatLit v => rfl
  | .Application f a => by
    simp only [applyTerm]
    rw [applyTerm_composeSub s1 s2 h f, applyTerm_composeSub s1 s2 h a]
  | .Abstraction _ _ _ => rfl
  | .WildCard => rfl
  | .pnone => rfl

theorem applyList_composeSub (s1 s2 : Substitution)
    (h : (s1.mapping.map Prod.fst).Nodup) :
    ∀ l, applyList (composeSub s2 s1) l = applyList s2 (applyList s1 l)
  | .nil => rfl
  | .cons a rest => by
    simp only [applyList]
    rw [applyTerm_composeSub s1 s2 h a, applyList_composeSub s1 s2 h rest]
end

/--
C3: the substitution composition law: for substitutions `s1`, `s2` whose
mapping holds each key once (the Python dict invariant) and every term `t`,
`compose(s2, s1)(t) = s2(s1(t))` — including the degenerate cases where
apply returns `None` for abstractions and wildcards, since `None`
propagates identically on both sides.
-/
theorem substitution_composition_law (s1 s2 : Substitution) (t : Term)
    (h : (s1.mapping.map Prod.fst).Nodup) :
    applyTerm (composeSub s2 s1) t = applyTerm s2 (applyTerm s1 t) :=
  applyTerm_composeSub s1 s2 h t

/-- Witness for the composition law at concrete substitutions and a
concrete term. -/
theorem substitution_composition_law_witness :
    (((⟨[("x", .NatLit 1)]⟩ : Substitution).mapping.map Prod.fst).Nodup) ∧
    applyTerm (composeSub ⟨[("y", .Var "x")]⟩ ⟨[("x", .NatLit 1)]⟩)
      (.Application (.Var "x") (.Var "y")) =
    applyTerm ⟨[("y", .Var "x")]⟩ (applyTerm ⟨[("x", .NatLit 1)]⟩
      (.Application (.Var "x") (.Var "y"))) :=
  ⟨by decide, substitution_composition_law ⟨[("x", .NatLit 1)]⟩ ⟨[("y", .Var "x")]⟩
    (.Application (.Var "x") (.Var "y")) (by decide)⟩

mutual
/-- On the rigid fragment, unification succeeds only on structurally equal
terms. -/
theorem rigid_unify_eq : ∀ (t1 t2 : Term) (s : Substitution),
    rigidTerm t1 = true → rigidTerm t2 = true → unify t1 t2 = some s → t1 = t2
  | .TypeConstructor n1 a1, t2, s => by
    intro h1 h2 hu
    cases t2 with
    | TypeConstructor n2 a2 =>
        rw [unify.eq_def] at hu
        simp only at hu
        by_cases hn : n1 = n2
        · subst hn
          rw [if_neg (by simp)] at hu
          by_cases hl : termListLength a1 = termListLength a2
          · rw [if_neg (by simp [hl])] at hu
            simp only [rigidTerm] at h1 h2
            rw [rigid_unifyArgs_eq a1 a2 emptySub s h1 h2 hl hu]
          · rw [if_pos (by simp [hl])] at hu
            exact Option.noConfusion hu
        · rw [if_pos (by simp [hn])] at hu
          exact Option.noConfusion hu
    | NatLit v2 => rw [unify.eq_def] at hu; exact Option.noConfusion hu
    | Application f2 x2 => rw [unify.eq_def] at hu; exact Option.noConfusion hu
    | Var n2 => simp [rigidTerm] at h2
    | DependantType p2 x2 b2 => simp [rigidTerm] at h2
    | Abstraction p2 ty2 b2 => simp [rigidTerm] at h2
    | WildCard => simp [rigidTerm] at h2
    | pnone => simp [rigidTerm] at h2
  | .NatLit v1, t2, s => by
    intro h1 h2 hu
    cases t2 with
    | NatLit v2 =>
        rw [unify.eq_def] at hu
        simp only at hu
        by_cases hv : v1 = v2
        · rw [hv]
        · rw [if_pos (by simp [hv])] at hu
          exact Option.noConfusion hu
    | TypeConstructor n2 a2 => rw [unify.eq_def] at hu; exact Option.noConfusion hu
    | Application f2 x2 => rw [unify.eq_def] at hu; exact Option.noConfusion hu
    | Var n2 => simp [rigidTerm] at h2
    | DependantType p2 x2 b2 => simp [rigidTerm] at h2
    | Abstraction p2 ty2 b2 => simp [rigidTerm] at h2
    | WildCard => simp [rigidTerm] at h2
    | pnone => simp [rigidTerm] at h2
  | .Application f1 x1, t2, s => by
    intro h1 h2 hu
    cases t2 with
    | Application f2 x2 =>
        rw [unify.eq_def] at hu
        simp only at hu
        simp only [rigidTerm, Bool.and_eq_true] at h1 h2
        cases huf : unify f1 f2 with
        | none => rw [huf] at hu; exact Option.noConfusion hu
        | some r1 =>
            rw [huf] at hu
            cases hux : unify x1 x2 with
            | none => rw [hux] at hu; exact Option.noConfusion hu
            | some r2 =>
                rw [rigid_unify_eq f1 f2 r1 h1.1 h2.1 huf,
                    rigid_unify_eq x1 x2 r2 h1.2 h2.2 hux]
    | TypeConstructor n2 a2 => rw [unify.eq_def] at hu; exact Option.noConfusion hu
    | NatLit v2 => rw [unify.eq_def] at hu; exact Option.noConfusion hu
    | Var n2 => simp [rigidTerm] at h2
    | DependantType p2 x2 b2 => simp [rigidTerm] at h2
    | Abstraction p2 ty2 b2 => simp [rigidTerm] at h2
    | WildCard => simp [rigidTerm] at h2
    | pnone => simp [rigidTerm] at h2
  | .Var n1, _, _ => by
    intro h1 _ _
    simp [rigidTerm] at h1
  | .DependantType p1 x1 b1, _, _ => by
    intro h1 _ _
    simp [rigidTerm] at h1
  | .Abstraction p1 ty1 b1, _, _ => by
    intro h1 _ _
    simp [rigidTerm] at h1
  | .WildCard, _, _ => by
    intro h1 _ _
    simp [rigidTerm] at h1
  | .pnone, _, _ => by
    intro h1 _ _
    simp [rigidTerm] at h1
termination_by t1 _ _ => termSize t1
decreasing_by
  all_goals simp only [termSize, listSize]
  all_goals omega

/-- On rigid argument lists of equal length, the pairwise unification loop
succeeds only on structurally equal lists. -/
theorem rigid_unifyArgs_eq : ∀ (l1 l2 : TermList) (s s' : Substitution),
    rigidList l1 = true → rigidList l2 = true →
    termListLength l1 = termListLength l2 → unifyArgs l1 l2 s = some s' → l1 = l2
  | .nil, l2, s, s' => by
    intro h1 h2 hlen hu
    cases l2 with
    | nil => rfl
    | cons b rest2 =>
        simp only [termListLength] at hlen
        exact absurd hlen (by omega)
  | .cons a rest1, l2, s, s' => by
    intro h1 h2 hlen hu
    cases l2 with
    | nil =>
        simp only [termListLength] at hlen
        exact absurd hlen (by omega)
    | cons b rest2 =>
        rw [unifyArgs.eq_def] at hu
        simp only at hu
        simp only [rigidList, Bool.and_eq_true] at h1 h2
        simp only [termListLength] at hlen
        cases hab : unify a b with
        | none => rw [hab] at hu; exact Option.noConfusion hu
        | some r =>
            rw [hab] at hu
            rw [rigid_unify_eq a b r h1.1 h2.1 hab,
                rigid_unifyArgs_eq rest1 rest2 (composeSub s r) s' h1.2 h2.2
                  (by omega) hu]
termination_by l1 _ _ _ => listSize l1
decreasing_by
  all_goals simp only [termSize, listSize]
  all_goals omega
end

/--
C1 (amended): unification soundness on the rigid fragment: for terms built
only from `TypeConstructor`, `Nat` literals and `Application` nodes, if
`unify(t1, t2)` returns a substitution `s` then `s(t1)` is structurally
equal to `s(t2)` (in fact `t1 = t2` there).
-/
theorem unify_sound_on_rigid (t1 t2 : Term) (s : Substitution)
    (h1 : rigidTerm t1 = true) (h2 : rigidTerm t2 = true)
    (hu : unify t1 t2 = some s) :
    applyTerm s t1 = applyTerm s t2 := by
  rw [rigid_unify_eq t1 t2 s h1 h2 hu]

/-- Witness for rigid soundness at a concrete pair of terms. -/
theorem unify_sound_on_rigid_witness :
    rigidTerm (.TypeConstructor "Nat" .nil) = true ∧
    unify (.TypeConstructor "Nat" .nil) (.TypeConstructor "Nat" .nil) = some emptySub ∧
    applyTerm emptySub (.TypeConstructor "Nat" .nil) =
    applyTerm emptySub (.TypeConstructor "Nat" .nil) :=
  ⟨rfl, by simp [unify, unifyArgs, termListLength, emptySub],
    unify_sound_on_rigid (.TypeConstructor "Nat" .nil) (.TypeConstructor "Nat" .nil)
    emptySub rfl rfl (by simp [unify, unifyArgs, termListLength, emptySub])⟩

/-- Every derivation of the inference relation computes `infer`'s value:
the relation has no outcomes beyond the function's. -/
theorem inferR_infer {t : Term} {ctx : Context} {c : Nat} {r : InferResult} {c' : Nat}
    (h : InferR t ctx c r c') : infer t ctx c = (r, c') := by
  induction h with
  | tcFound n args ctx c v hget hv =>
    cases v <;> first | (exact absurd rfl hv) | simp [infer, hget]
  | tcMissing n args ctx c hget => simp [infer, hget]
  | tcNone n args ctx c hget => simp [infer, hget]
  | natLit v ctx c => simp [infer]
  | varFound n ctx c hmem => simp [infer, hmem]
  | varMissing n ctx c hmem => simp [infer, hmem]
  | absErr p ty body ctx c e c' hbody ih => simp [infer, ih]
  | absOk p ty body ctx c s2 t1 c' hbody ih => simp [infer, ih]
  | appErrFunc func arg ctx c e c1 hfunc ih => simp [infer, ih]
  | appErrArg func arg ctx c s1 t1 c1 e c2 hfunc harg ihf iha => simp [infer, ihf, iha]
  | appUnifyFail func arg ctx c s1 t1 c1 s2 t2 c2 hfunc harg hunify ihf iha =>
    simp [infer, ihf, iha, hunify]
  | appOk func arg ctx c s1 t1 c1 s2 t2 c2 s3 hfunc harg hunify ihf iha =>
    simp [infer, ihf, iha, hunify]
  | dtErrTerm p tm body ctx c e c1 htm ih => simp [infer, ih]
  | dtErrBody p tm body ctx c s1 t1 c1 e c2 htm hbody iht ihb => simp [infer, iht, ihb]
  | dtOk p tm body ctx c s1 t1 c1 s2 t2 c2 htm hbody iht ihb => simp [infer, iht, ihb]
  | wildcard ctx c => simp [infer]
  | pnoneR ctx c => simp [infer]

/-- `infer`'s value is always derivable: the inference relation is total. -/
theorem infer_inferR : ∀ (t : Term) (ctx : Context) (c : Nat),
    InferR t ctx c (infer t ctx c).1 (infer t ctx c).2
  | .TypeConstructor n args, ctx, c => by
    cases hget : dictGet ctx.mapping n with
    | none => simpa [infer, hget] using InferR.tcMissing n args ctx c hget
    | some v =>
        cases v <;>
          first
          | (simpa [infer, hget] using InferR.tcNone n args ctx c hget)
          | (simpa [infer, hget] using InferR.tcFound n args ctx c _ hget (by simp))
  | .NatLit v, ctx, c => by simpa [infer] using InferR.natLit v ctx c
  | .Var n, ctx, c => by
    cases hmem : dictContains ctx.mapping n with
    | true => simpa [infer, hmem] using InferR.varFound n ctx c hmem
    | false => simpa [infer, hmem] using InferR.varMissing n ctx c hmem
  | .Abstraction p ty body, ctx, c => by
    have ih := infer_inferR body (absContext p ty ctx) c
    cases hb : infer body (absContext p ty ctx) c with
    | mk rb cb =>
      rw [hb] at ih
      cases rb with
      | err e => simpa [infer, hb] using InferR.absErr p ty body ctx c e cb ih
      | ok s2 t1 => simpa [infer, hb] using InferR.absOk p ty body ctx c s2 t1 cb ih
  | .Application func arg, ctx, c => by
    have ihf := infer_inferR func ctx c
    cases hf : infer func ctx c with
    | mk rf cf =>
      rw [hf] at ihf
      cases rf with
      | err e => simpa [infer, hf] using InferR.appErrFunc func arg ctx c e cf ihf
      | ok s1 t1 =>
        have iha := infer_inferR arg ctx cf
        cases ha : infer arg ctx cf with
        | mk ra ca =>
          rw [ha] at iha
          cases ra with
          | err e =>
              simpa [infer, hf, ha] using
                InferR.appErrArg func arg ctx c s1 t1 cf e ca ihf iha
          | ok s2 t2 =>
            cases hu : unify t1 (.TypeConstructor "->"
                (.cons t2 (.cons (.Var (freshName ca)) .nil))) with
            | none =>
                simpa [infer, hf, ha, hu] using
                  InferR.appUnifyFail func arg ctx c s1 t1 cf s2 t2 ca ihf iha hu
            | some s3 =>
                simpa [infer, hf, ha, hu] using
                  InferR.appOk func arg ctx c s1 t1 cf s2 t2 ca s3 ihf iha hu
  | .DependantType p tm body, ctx, c => by
    have iht := infer_inferR tm (mkContext ctx.mapping) c
    cases ht : infer tm (mkContext ctx.mapping) c with
    | mk rt ct =>
      rw [ht] at iht
      cases rt with
      | err e => simpa [infer, ht] using InferR.dtErrTerm p tm body ctx c e ct iht
      | ok s1 t1 =>
        have ihb := infer_inferR body ⟨dictSet (mkContext ctx.mapping).mapping p t1⟩ ct
        cases hb : infer body ⟨dictSet (mkContext ctx.mapping).mapping p t1⟩ ct with
        | mk rb cb =>
          rw [hb] at ihb
          cases rb with
          | err e =>
              simpa [infer, ht, hb] using
                InferR.dtErrBody p tm body ctx c s1 t1 ct e cb iht ihb
          | ok s2 t2 =>
              simpa [infer, ht, hb] using
                InferR.dtOk p tm body ctx c s1 t1 ct s2 t2 cb iht ihb
  | .WildCard, ctx, c => by simpa [infer] using InferR.wildcard ctx c
  | .pnone, ctx, c => by simpa [infer] using InferR.pnoneR ctx c

/--
C8 (amended): inference is deterministic as a function of term, context and
fresh-name counter state: any two derivations of the inference relation
from the same term, context and counter reach the same result and the same
final counter.
-/
theorem inferR_deterministic (t : Term) (ctx : Context) (c : Nat)
    (r1 r2 : InferResult) (c1 c2 : Nat)
    (h1 : InferR t ctx c r1 c1) (h2 : InferR t ctx c r2 c2) :
    r1 = r2 ∧ c1 = c2 := by
  have e1 := inferR_infer h1
  have e2 := inferR_infer h2
  rw [e1] at e2
  exact ⟨congrArg Prod.fst e2, congrArg Prod.snd e2⟩

/-- Witness for determinism at a concrete derivation. -/
theorem inferR_deterministic_witness :
    InferR (.NatLit 5) builtinContext 0 (.ok emptySub (.TypeConstructor "Nat" .nil)) 0 ∧
    ((InferResult.ok emptySub (.TypeConstructor "Nat" .nil)) =
    .ok emptySub (.TypeConstructor "Nat" .nil) ∧ (0 : Nat) = 0) :=
  ⟨InferR.natLit 5 builtinContext 0,
    inferR_deterministic (.NatLit 5) builtinContext 0 _ _ _ _
    (InferR.natLit 5 builtinContext 0) (InferR.natLit 5 builtinContext 0)⟩

/-- The instrumented inference agrees with `infer` on result and counter. -/
theorem inferT_eq_infer : ∀ (t : Term) (ctx : Context) (c : Nat),
    ((inferT t ctx c).1, (inferT t ctx c).2.1) = infer t ctx c
  | .TypeConstructor n args, ctx, c => by simp [inferT, infer]
  | .NatLit v, ctx, c => by simp [inferT, infer]
  | .Var n, ctx, c => by
    by_cases h : dictContains ctx.mapping n <;> simp [inferT, infer, h]
  | .Abstraction p ty body, ctx, c => by
    have ih := inferT_eq_infer body (absContext p ty ctx) c
    cases hb : inferT body (absContext p ty ctx) c with
    | mk rb rest =>
      obtain ⟨cb, nsb⟩ := rest
      rw [hb] at ih
      simp only at ih
      cases rb with
      | err e => simp [inferT, infer, hb, ← ih]
      | ok s2 t1 => simp [inferT, infer, hb, ← ih]
  | .Application func arg, ctx, c => by
    have ihf := inferT_eq_infer func ctx c
    cases hf : inferT func ctx c with
    | mk rf restf =>
      obtain ⟨cf, nsf⟩ := restf
      rw [hf] at ihf
      simp only at ihf
      cases rf with
      | err e => simp [inferT, infer, hf, ← ihf]
      | ok s1 t1 =>
        have iha := inferT_eq_infer arg ctx cf
        cases ha : inferT arg ctx cf with
        | mk ra resta =>
          obtain ⟨ca, nsa⟩ := resta
          rw [ha] at iha
          simp only at iha
          cases ra with
          | err e => simp [inferT, infer, hf, ha, ← ihf, ← iha]
          | ok s2 t2 =>
            cases hu : unify t1 (.TypeConstructor "->"
                (.cons t2 (.cons (.Var (freshName ca)) .nil))) with
            | none => simp [inferT, infer, hf, ha, ← ihf, ← iha, hu]
            | some s3 => simp [inferT, infer, hf, ha, ← ihf, ← iha, hu]
  | .DependantType p tm body, ctx, c => by
    have iht := inferT_eq_infer tm (mkContext ctx.mapping) c
    cases ht : inferT tm (mkContext ctx.mapping) c with
    | mk rt restt =>
      obtain ⟨ct, nst⟩ := restt
      rw [ht] at iht
      simp only at iht
      cases rt with
      | err e => simp [inferT, infer, ht, ← iht]
      | ok s1 t1 =>
        have ihb := inferT_eq_infer body ⟨dictSet (mkContext ctx.mapping).mapping p t1⟩ ct
        cases hb : inferT body ⟨dictSet (mkContext ctx.mapping).mapping p t1⟩ ct with
        | mk rb restb =>
          obtain ⟨cb, nsb⟩ := restb
          rw [hb] at ihb
          simp only at ihb
          cases rb with
          | err e => simp [inferT, infer, ht, hb, ← iht, ← ihb]
          | ok s2 t2 => simp [inferT, infer, ht, hb, ← iht, ← ihb]
  | .WildCard, ctx, c => by simp [inferT, infer]
  | .pnone, ctx, c => by simp [inferT, infer]

/-- During a run the counter only grows, and the recorded fresh names are
exactly `t(c+1), t(c+2), ..., t(c')` in creation order: the image under
`freshName` of the counter values passed through. -/
theorem inferT_trace : ∀ (t : Term) (ctx : Context) (c : Nat),
    c ≤ (inferT t ctx c).2.1 ∧
    (inferT t ctx c).2.2 =
    (List.range' c ((inferT t ctx c).2.1 - c)).map freshName
  | .TypeConstructor n args, ctx, c => by simp [inferT]
  | .NatLit v, ctx, c => by simp [inferT]
  | .Var n, ctx, c => by
    by_cases h : dictContains ctx.mapping n <;> simp [inferT, h]
  | .Abstraction p ty body, ctx, c => by
    have ih := inferT_trace body (absContext p ty ctx) c
    cases hb : inferT body (absContext p ty ctx) c with
    | mk rb rest =>
      obtain ⟨cb, nsb⟩ := rest
      rw [hb] at ih
      simp only at ih
      cases rb with
      | err e => simpa [inferT, hb] using ih
      | ok s2 t1 => simpa [inferT, hb] using ih
  | .Application func arg, ctx, c => by
    have ihf := inferT_trace func ctx c
    cases hf : inferT func ctx c with
    | mk rf restf =>
      obtain ⟨cf, nsf⟩ := restf
      rw [hf] at ihf
      simp only at ihf
      cases rf with
      | err e => simpa [inferT, hf] using ihf
      | ok s1 t1 =>
        have iha := inferT_trace arg ctx cf
        cases ha : inferT arg ctx cf with
        | mk ra resta =>
          obtain ⟨ca, nsa⟩ := resta
          rw [ha] at iha
          simp only at iha
          have happ : nsf ++ nsa = (List.range' c (ca - c)).map freshName := by
            rw [ihf.2, iha.2, ← List.map_append]
            have h1 : List.range' c (cf - c) ++ List.range' (c + (cf - c)) (ca - cf) =
                List.range' c ((ca - cf) + (cf - c)) := List.range'_append_1 c (cf - c) (ca - cf)
            rw [show c + (cf - c) = cf by omega] at h1
            rw [show (ca - cf) + (cf - c) = ca - c by omega] at h1
            rw [h1]
          cases ra with
          | err e =>
              refine ⟨?_, ?_⟩
              · simp only [inferT, hf, ha]
                omega
              · simpa [inferT, hf, ha] using happ
          | ok s2 t2 =>
            have hconcat : nsf ++ nsa ++ [freshName ca] =
                (List.range' c (ca + 1 - c)).map freshName := by
              rw [happ]
              have h2 : List.range' c ((ca - c) + 1) =
                  List.range' c (ca - c) ++ [c + 1 * (ca - c)] := List.range'_concat c (ca - c)
              rw [show c + 1 * (ca - c) = ca by omega] at h2
              rw [show ca + 1 - c = (ca - c) + 1 by omega, h2]
              simp
            cases hu : unify t1 (.TypeConstructor "->"
                (.cons t2 (.cons (.Var (freshName ca)) .nil))) with
            | none =>
                refine ⟨?_, ?_⟩
                · simp only [inferT, hf, ha, hu]
                  omega
                · simpa [inferT, hf, ha, hu] using hconcat
            | some s3 =>
                refine ⟨?_, ?_⟩
                · simp only [inferT, hf, ha, hu]
                  omega
                · simpa [inferT, hf, ha, hu] using hconcat
  | .DependantType p tm body, ctx, c => by
    have iht := inferT_trace tm (mkContext ctx.mapping) c
    cases ht : inferT tm (mkContext ctx.mapping) c with
    | mk rt restt =>
      obtain ⟨ct, nst⟩ := restt
      rw [ht] at iht
      simp only at iht
      cases rt with
      | err e => simpa [inferT, ht] using iht
      | ok s1 t1 =>
        have ihb := inferT_trace body ⟨dictSet (mkContext ctx.mapping).mapping p t1⟩ ct
        cases hb : inferT body ⟨dictSet (mkContext ctx.mapping).mapping p t1⟩ ct with
        | mk rb restb =>
          obtain ⟨cb, nsb⟩ := restb
          rw [hb] at ihb
          simp only at ihb
          have happ : nst ++ nsb = (List.range' c (cb - c)).map freshName := by
            rw [iht.2, ihb.2, ← List.map_append]
            have h1 : List.range' c (ct - c) ++ List.range' (c + (ct - c)) (cb - ct) =
                List.range' c ((cb - ct) + (ct - c)) := List.range'_append_1 c (ct - c) (cb - ct)
            rw [show c + (ct - c) = ct by omega] at h1
            rw [show (cb - ct) + (ct - c) = cb - c by omega] at h1
            rw [h1]
          cases rb with
          | err e =>
              refine ⟨?_, ?_⟩
              · simp only [inferT, ht, hb]
                omega
              · simpa [inferT, ht, hb] using happ
          | ok s2 t2 =>
              refine ⟨?_, ?_⟩
              · simp only [inferT, ht, hb]
                omega
              · simpa [inferT, ht, hb] using happ
  | .WildCard, ctx, c => by simp [inferT]
  | .pnone, ctx, c => by simp [inferT]

/-- `digitVal` inverts `Nat.digitChar` on decimal digits. -/
theorem digitVal_digitChar {d : Nat} (h : d < 10) :
    digitVal (Nat.digitChar d) = d := by
  interval_cases d <;> decide

/-- `myDigits` is never empty. -/
theorem myDigits_ne_nil (n : Nat) : myDigits n ≠ [] := by
  rw [myDigits.eq_def]
  split <;> simp

/-- With sufficient fuel, core's digit accumulator computes `myDigits`. -/
theorem toDigitsCore_eq_myDigits : ∀ (fuel : Nat), ∀ (n : Nat) (ds : List Char), n < fuel →
    Nat.toDigitsCore 10 fuel n ds = myDigits n ++ ds := by
  intro fuel
  induction fuel using Nat.strong_induction_on with
  | _ fuel ih =>
    intro n ds hn
    match fuel, hn with
    | fuel + 1, hn =>
      simp only [Nat.toDigitsCore]
      by_cases h0 : n / 10 = 0
      · rw [if_pos h0]
        have hlt : n < 10 := by omega
        rw [myDigits.eq_def, if_pos hlt, Nat.mod_eq_of_lt hlt]
        simp
      · rw [if_neg h0]
        have hfuel : n / 10 < fuel := by omega
        rw [ih fuel (by omega) (n / 10) _ hfuel]
        rw [myDigits.eq_def n]
        rw [if_neg (by omega)]
        simp

/-- `Nat.digitChar` is injective below 10. -/
theorem digitChar_inj {a b : Nat} (ha : a < 10) (hb : b < 10)
    (h : Nat.digitChar a = Nat.digitChar b) : a = b := by
  have := digitVal_digitChar ha
  rw [h, digitVal_digitChar hb] at this
  omega

/-- `myDigits` is injective. -/
theorem myDigits_injective : ∀ (n m : Nat), myDigits n = myDigits m → n = m := by
  intro n
  induction n using Nat.strong_induction_on with
  | _ n ih =>
    intro m h
    by_cases hn : n < 10 <;> by_cases hm : m < 10
    · rw [myDigits.eq_def n, if_pos hn, myDigits.eq_def m, if_pos hm] at h
      exact digitChar_inj hn hm (List.singleton_injective h)
    · rw [myDigits.eq_def n, if_pos hn, myDigits.eq_def m, if_neg hm] at h
      have hlen := congrArg List.length h
      simp [List.length_append] at hlen
      exact absurd hlen (myDigits_ne_nil (m / 10))
    · rw [myDigits.eq_def n, if_neg hn, myDigits.eq_def m, if_pos hm] at h
      have hlen := congrArg List.length h
      simp [List.length_append] at hlen
      exact absurd hlen (myDigits_ne_nil (n / 10))
    · rw [myDigits.eq_def n, if_neg hn, myDigits.eq_def m, if_neg hm] at h
      have hrev := congrArg List.reverse h
      simp only [List.reverse_append, List.reverse_cons, List.reverse_nil,
        List.nil_append, List.singleton_append, List.cons.injEq] at hrev
      obtain ⟨hd, htl⟩ := hrev
      have hmod : n % 10 = m % 10 :=
        digitChar_inj (Nat.mod_lt _ (by omega)) (Nat.mod_lt _ (by omega)) hd
      have hdiv : n / 10 = m / 10 := by
        apply ih (n / 10) (by omega)
        have := congrArg List.reverse htl
        simpa using this
      omega

/-- `Nat.repr` is injective. -/
theorem nat_repr_injective : Function.Injective Nat.repr := by
  intro n m h
  have hdata : Nat.toDigits 10 n = Nat.toDigits 10 m := congrArg String.data h
  rw [Nat.toDigits, Nat.toDigits,
    toDigitsCore_eq_myDigits (n + 1) n [] (by omega),
    toDigitsCore_eq_myDigits (m + 1) m [] (by omega)] at hdata
  simp at hdata
  exact myDigits_injective n m hdata

/-- Fresh names are pairwise distinct across counter values. -/
theorem freshName_injective : Function.Injective freshName := by
  intro a b h
  have hdata := congrArg String.data h
  simp only [freshName, String.data_append] at hdata
  have hrepr := List.append_cancel_left hdata
  have hdig : Nat.toDigits 10 (a + 1) = Nat.toDigits 10 (b + 1) := hrepr
  rw [Nat.toDigits, Nat.toDigits,
    toDigitsCore_eq_myDigits (a + 2) (a + 1) [] (by omega),
    toDigitsCore_eq_myDigits (b + 2) (b + 1) [] (by omega)] at hdig
  simp at hdig
  have := myDigits_injective (a + 1) (b + 1) hdig
  omega

/--
C9 (amended): within one inference run the fresh-name counter never repeats
a name: the instrumented run (which agrees with `infer` on result and
counter) records the fresh names generated by wildcard inference and by
application's `β` in creation order, and that list holds no duplicates.
-/
theorem fresh_names_distinct_within_run (t : Term) (ctx : Context) (c : Nat) :
    ((inferT t ctx c).1, (inferT t ctx c).2.1) = infer t ctx c ∧
    ((inferT t ctx c).2.2).Nodup := by
  refine ⟨inferT_eq_infer t ctx c, ?_⟩
  rw [(inferT_trace t ctx c).2]
  exact (List.nodup_range' _ _).map freshName_injective

end Typecheck
